import Mathlib

/-!
Verification development for the liveness-analysis and garbage-collection
engine of `cargo-clean-artifact` (a Rust tool that removes stale build
artifacts from a cargo `target` directory).

The Rust sources are embedded shallowly:
* filenames and paths are `String`s; the relevant fragments of
  `std::path::Path` semantics (`file_stem`, `file_name`, `extension`,
  `starts_with`, component parsing) are modelled explicitly;
* directory listings obtained through `read_dir` are lists of entries
  (`FsEntry` / `IncEntry`) carrying the data the code reads from the
  filesystem (name, is-dir flag, size, mtime);
* `HashSet` values are lists used only through membership;
* `HashMap` values are total functions with zero / `none` defaults
  (extensionally, a map with default values);
* async I/O is resolved: the fallible `fs` calls appear in the code only as
  `metadata(..).map(len).unwrap_or(0)` and as deletion outcomes, which are
  supplied as explicit data (sizes) and oracles (deletion results).
-/

namespace CargoClean

/-! ### Path / filename helpers (fragment of `std::path` used by the code)

All string manipulation is implemented by structural recursion on the
character list `String.data`, so every definition evaluates inside the
kernel (`decide` / `rfl` on concrete inputs). -/

/-- Split a character list on a separator character.  `[]` yields `[[]]`,
matching `str::split`, which always produces at least one piece. -/
def splitOnCharAux (c : Char) : List Char → List (List Char)
  | [] => [[]]
  | x :: xs =>
    match splitOnCharAux c xs with
    | [] => []
    | h :: t => if x = c then [] :: h :: t else (x :: h) :: t

/-- `str::split(c)` (equivalently `String.splitOn` with a one-character
separator), as a list of strings. -/
def strSplit (c : Char) (s : String) : List String :=
  (splitOnCharAux c s.data).map String.mk

/-- Join strings with a single-character separator (inverse of `strSplit`). -/
def joinWithChar (c : Char) : List String → String
  | [] => ""
  | [x] => x
  | x :: xs => x ++ String.mk [c] ++ joinWithChar c xs

/-- `str::strip_prefix("lib").unwrap_or(s)`: drop a leading `"lib"` if present. -/
def stripLib (s : String) : String :=
  if s.data.take 3 = ['l', 'i', 'b'] then String.mk (s.data.drop 3) else s

/-- `str::split_once('.')` keeping the left part (`map_or(s, |(l, _)| l)`):
everything before the first dot, or the whole string when there is no dot. -/
def beforeFirstDot (s : String) : String :=
  match strSplit '.' s with
  | [] => s
  | t :: _ => t

/-- `str::contains('-')`. -/
def containsHyphen (s : String) : Bool :=
  s.data.contains '-'

/-- `str::replace('-', "_")`: character-for-character replacement. -/
def normalizeHyphens (s : String) : String :=
  String.mk (s.data.map fun c => if c = '-' then '_' else c)

/-- `Path::file_stem` applied to a plain file name (a `read_dir` entry name,
which contains no separator): the part before the last `.`, except that a
dot in leading position does not begin an extension (`.gitignore` is its own
stem) and a name without a dot is its own stem. -/
def fileStem (n : String) : String :=
  let parts := strSplit '.' n
  if parts.length ≤ 1 then n
  else if parts.head? = some "" ∧ parts.length = 2 then n
  else joinWithChar '.' parts.dropLast

/-- `str::split('-').next().unwrap_or(s)`: the first `-`-delimited segment. -/
def firstHyphenSegment (s : String) : String :=
  match strSplit '-' s with
  | [] => s
  | t :: _ => t

/-- `Path::join` of a directory and an entry name. -/
def joinPath (dir name : String) : String := dir ++ "/" ++ name

/-- `Path::components`, to the extent the code relies on them: a leading `/`
becomes a root component, empty segments and inner `.` segments disappear,
and a leading `.` survives as a component of a relative path. -/
def pathComponents (s : String) : List String :=
  let keep : String → Bool := fun c => c ≠ "" ∧ c ≠ "."
  match s.data with
  | '/' :: _ => "/" :: (strSplit '/' s).filter keep
  | _ =>
    match strSplit '/' s with
    | "." :: rest => "." :: rest.filter keep
    | parts => parts.filter keep

/-- `Path::starts_with`: component-wise prefix test. -/
def pathStartsWith (p pre : String) : Bool :=
  (pathComponents pre).isPrefixOf (pathComponents p)

/-- `Path::file_name`: the final path component, unless it is the root, `.`
or `..`. -/
def fileName? (s : String) : Option String :=
  match (pathComponents s).getLast? with
  | none => none
  | some c => if c = "/" ∨ c = ".." ∨ c = "." then none else some c

/-- `Path::extension`: the part of the file name after its last dot, absent
when there is no file name, no dot, or only a leading dot. -/
def extension? (s : String) : Option String :=
  match fileName? s with
  | none => none
  | some fn =>
    let parts := strSplit '.' fn
    if parts.length ≤ 1 then none
    else if parts.head? = some "" ∧ parts.length = 2 then none
    else parts.getLast?

/-! ### `src/clean/scan.rs` and `src/crate_deps.rs` -/

/-- `scan::artifact_stem`, applied to the file name of the path (the code
derives the name via `path.file_name()?.to_str()?`; a `read_dir` entry path
always yields the entry's own name):

```rust
let without_lib = filename.strip_prefix("lib").unwrap_or(filename);
let stem = without_lib.split_once('.').map_or(without_lib, |(s, _)| s);
if stem.contains('-') { Some(stem.to_string()) } else { None }
``` -/
def artifact_stem (filename : String) : Option String :=
  let without_lib := stripLib filename
  let stem := beforeFirstDot without_lib
  if containsHyphen stem then some stem else none

/-- `crate_deps::crate_key`, applied to a plain file name (for a `read_dir`
entry path `dir.join(name)`, `file_stem` depends only on `name`):

```rust
let name = path.file_stem().and_then(|s| s.to_str()).unwrap_or("unknown");
let name = name.strip_prefix("lib").unwrap_or(name);
name.split('-').next().unwrap_or(name).to_string()
``` -/
def crate_key (filename : String) : String :=
  firstHyphenSegment (stripLib (fileStem filename))

/-- `crate_key` on a full path, as used by `actually_remove_files` on the
recorded removal paths: `file_stem` of a general path is the stem of its
file name, and `unwrap_or("unknown")` covers paths without a file name. -/
def crate_key_path (p : String) : String :=
  match fileName? p with
  | some n => crate_key n
  | none => firstHyphenSegment (stripLib "unknown")

/-! ### `src/clean/stats.rs`: the statistics aggregate and its merge -/

/-- `stats::CrateStat`. -/
structure CrateStat where
  files : Nat := 0
  bytes : Nat := 0
deriving Repr, DecidableEq

/-- `stats::ProfileStat`. -/
structure ProfileStat where
  files : Nat := 0
  bytes : Nat := 0
  used_bytes : Nat := 0
  total_dir_bytes : Nat := 0
deriving Repr, DecidableEq

/-- `stats::FileToRemove`. -/
structure FileToRemove where
  path : String
  size : Nat
  profile : String
deriving Repr, DecidableEq

/-- `stats::DirToRemove`. -/
structure DirToRemove where
  path : String
  size : Nat
  profile : String
deriving Repr, DecidableEq

/-- `stats::CleanupStats`.  The two `HashMap`s are modelled extensionally as
total functions with `Default::default()` values outside their key sets, and
the `errors` map (`HashMap<(String, String, String), anyhow::Error>`) as a
partial function to the error's message. -/
structure CleanupStats where
  files : Nat := 0
  bytes : Nat := 0
  used_bytes : Nat := 0
  per_crate : String → CrateStat := fun _ => {}
  per_profile : String → ProfileStat := fun _ => {}
  errors : String × String × String → Option String := fun _ => none
  files_to_remove : List FileToRemove := []
  dirs_to_remove : List DirToRemove := []

/-- Pointwise update of a map entry: `map.entry(k).or_default()` followed by
mutation `f` of that entry. -/
def updAt {β : Type} (m : String → β) (k : String) (f : β → β) : String → β :=
  fun x => if x = k then f (m x) else m x

/-- `HashMap::insert` on the errors map. -/
def insertErr (m : String × String × String → Option String)
    (k : String × String × String) (v : String) : String × String × String → Option String :=
  fun x => if x = k then some v else m x

/-- `HashMap::extend` on the errors map: entries of `o` overwrite entries of
`s` on key collision (last write wins). -/
def extendErr (s o : String × String × String → Option String) :
    String × String × String → Option String :=
  fun k => match o k with
  | some v => some v
  | none => s k

/-- `CleanupStats::merge_from` (`self.merge_from(other)`, returned as a new
value): field-wise sums, key-wise map sums, list concatenation, and
`errors.extend` with the right operand winning on collisions. -/
def CleanupStats.merge_from (s o : CleanupStats) : CleanupStats where
  files := s.files + o.files
  bytes := s.bytes + o.bytes
  used_bytes := s.used_bytes + o.used_bytes
  per_crate := fun k =>
    { files := (s.per_crate k).files + (o.per_crate k).files
      bytes := (s.per_crate k).bytes + (o.per_crate k).bytes }
  per_profile := fun k =>
    { files := (s.per_profile k).files + (o.per_profile k).files
      bytes := (s.per_profile k).bytes + (o.per_profile k).bytes
      used_bytes := (s.per_profile k).used_bytes + (o.per_profile k).used_bytes
      total_dir_bytes := (s.per_profile k).total_dir_bytes + (o.per_profile k).total_dir_bytes }
  errors := extendErr s.errors o.errors
  files_to_remove := s.files_to_remove ++ o.files_to_remove
  dirs_to_remove := s.dirs_to_remove ++ o.dirs_to_remove

/-! ### `CleanCommand::clean_with_trace_result` (src/clean/mod.rs) -/

/-- A traced used-artifact path, split as parent directory plus file name
(`artifact.parent()` / `artifact.file_name()` of a well-formed artifact
path). -/
structure TracedArtifact where
  dir : String
  name : String
deriving Repr, DecidableEq

/-- A `read_dir` entry of a directory: its name (a plain file name, no
separators), whether it is a directory, and the `metadata().len()` the code
reads for it (`unwrap_or(0)` folded in). -/
structure FsEntry where
  name : String
  isDir : Bool
  size : Nat
deriving Repr, DecidableEq

/-- The `used_stems` set: stems of traced artifacts whose parent directory
is exactly this deps directory.  (`HashSet` modelled as a list used through
membership; duplicates are irrelevant.) -/
def usedStems (depsDir : String) (used_artifacts : List TracedArtifact) : List String :=
  used_artifacts.filterMap fun a =>
    if a.dir = depsDir then artifact_stem a.name else none

/-- The `protected_crate_names` set: for every plain file directly in the
parent profile directory, its `file_stem` with a `lib` prefix stripped and
`-` normalized to `_`. -/
def protectedCrateNames (profileEntries : List FsEntry) : List String :=
  profileEntries.filterMap fun e =>
    if e.isDir then none
    else some (normalizeHyphens (stripLib (fileStem e.name)))

/-- The body of the `while let Some(entry) = entries.next_entry()` loop of
`clean_with_trace_result`, processing one deps-directory entry. -/
def processDepsEntry (depsDir : String) (stems prot : List String) (profile : String)
    (stats : CleanupStats) (e : FsEntry) : CleanupStats :=
  if e.isDir then stats
  else
    match artifact_stem e.name with
    | none => stats
    | some stem =>
      if stems.contains stem then
        { stats with
          used_bytes := stats.used_bytes + e.size
          per_profile := updAt stats.per_profile profile
            (fun p => { p with used_bytes := p.used_bytes + e.size }) }
      else if prot.contains (crate_key e.name) then
        { stats with
          used_bytes := stats.used_bytes + e.size
          per_profile := updAt stats.per_profile profile
            (fun p => { p with used_bytes := p.used_bytes + e.size }) }
      else
        { stats with
          files_to_remove := stats.files_to_remove ++
            [{ path := joinPath depsDir e.name, size := e.size, profile := profile }]
          files := stats.files + 1
          bytes := stats.bytes + e.size
          per_crate := updAt
            (updAt stats.per_crate (crate_key e.name)
              (fun c => { c with files := c.files + 1 }))
            (crate_key e.name) (fun c => { c with bytes := c.bytes + e.size })
          per_profile := updAt
            (updAt stats.per_profile profile (fun p => { p with files := p.files + 1 }))
            profile (fun p => { p with bytes := p.bytes + e.size }) }

/-- `CleanCommand::clean_with_trace_result`: build `used_stems` and
`protected_crate_names`, then fold the loop body over the deps-directory
listing starting from `CleanupStats::default()`. -/
def clean_with_trace_result (depsDir : String) (used_artifacts : List TracedArtifact)
    (profile : String) (profileEntries : List FsEntry) (entries : List FsEntry) :
    CleanupStats :=
  let stems := usedStems depsDir used_artifacts
  let prot := protectedCrateNames profileEntries
  entries.foldl (processDepsEntry depsDir stems prot profile) {}

/-! ### `CleanCommand::clean_incremental_dir` (src/clean/mod.rs) -/

/-- A `read_dir` entry of `<profile>/incremental`: name, is-dir flag, the
modification time the code reads (`modified().unwrap_or(UNIX_EPOCH)`,
modelled as a `Nat`), and the `dir_size_bytes` recursive size the code
computes for it when marking it stale. -/
structure IncEntry where
  name : String
  isDir : Bool
  mtime : Nat
  size : Nat
deriving Repr, DecidableEq

/-- The owning crate name of a session directory: the directory name split
at its last `-` (`dir_name.rfind('-')`), or the whole name when it has no
`-`. -/
def crateNameOfDir (n : String) : String :=
  let parts := strSplit '-' n
  if parts.length ≤ 1 then n
  else joinWithChar '-' parts.dropLast

/-- `Vec::sort_by(|a, b| b.1.cmp(&a.1))`: a stable sort by modification time
descending, modelled as stable insertion sort (an element is placed before
the first strictly older element, so ties keep their original order, as with
Rust's stable `sort_by`). -/
def insertByMtimeDesc (a : IncEntry) : List IncEntry → List IncEntry
  | [] => [a]
  | b :: bs => if b.mtime ≤ a.mtime then a :: b :: bs else b :: insertByMtimeDesc a bs

/-- Stable descending-by-mtime sort of a session group. -/
def sortByMtimeDesc (l : List IncEntry) : List IncEntry :=
  l.foldr insertByMtimeDesc []

/-- `by_crate` grouping: fold the session list into an association list from
crate name to sessions, preserving insertion order inside each group (the
`HashMap<String, Vec<_>>` with `entry(..).or_default().push(..)`; only the
groups' contents matter downstream, the map's iteration order is
unspecified in Rust and is determinized here as first-appearance order). -/
def addToGroups (gs : List (String × List IncEntry)) (e : IncEntry) :
    List (String × List IncEntry) :=
  if gs.any (fun g => g.1 = crateNameOfDir e.name) then
    gs.map fun g => if g.1 = crateNameOfDir e.name then (g.1, g.2 ++ [e]) else g
  else
    gs ++ [(crateNameOfDir e.name, [e])]

/-- The `by_crate` map built from the directory entries. -/
def groupByCrate (l : List IncEntry) : List (String × List IncEntry) :=
  l.foldl addToGroups []

/-- The inner `for (path, _) in sessions.into_iter().skip(1)` loop body:
mark one stale session for removal. -/
def markStaleSession (incDir profile : String) (stats : CleanupStats) (e : IncEntry) :
    CleanupStats :=
  { stats with
    dirs_to_remove := stats.dirs_to_remove ++
      [{ path := joinPath incDir e.name, size := e.size, profile := profile }]
    files := stats.files + 1
    bytes := stats.bytes + e.size
    per_profile := updAt
      (updAt stats.per_profile profile (fun p => { p with files := p.files + 1 }))
      profile (fun p => { p with bytes := p.bytes + e.size }) }

/-- `CleanCommand::clean_incremental_dir`: when the incremental directory
exists, collect its subdirectory entries, group them by crate name, and in
every group of size > 1 sort newest-first and mark everything after index 0
stale. -/
def clean_incremental_dir (incExists : Bool) (incDir : String)
    (entries : List IncEntry) (profile : String) : CleanupStats :=
  if !incExists then {}
  else
    let dirs := entries.filter (·.isDir)
    (groupByCrate dirs).foldl
      (fun stats g =>
        if g.2.length ≤ 1 then stats
        else ((sortByMtimeDesc g.2).drop 1).foldl (markStaleSession incDir profile) stats)
      {}

/-! ### `CleanCommand::actually_remove_files` (src/clean/mod.rs) -/

/-- `prompt::RemovalSelection`. -/
structure RemovalSelection where
  remove_files : Bool
  remove_dirs : Bool
deriving Repr, DecidableEq

/-- The body of the file-removal loop: `fs::remove_file` outcome supplied by
the oracle `removeFile` (`none` = success, `some msg` = the error). -/
def removeOneFile (removeFile : String → Option String)
    (stats : CleanupStats) (fi : FileToRemove) : CleanupStats :=
  let ck := crate_key_path fi.path
  match removeFile fi.path with
  | none =>
    { stats with
      files := stats.files + 1
      bytes := stats.bytes + fi.size
      per_crate := updAt stats.per_crate ck
        (fun c => { files := c.files + 1, bytes := c.bytes + fi.size })
      per_profile := updAt stats.per_profile fi.profile
        (fun p => { p with files := p.files + 1, bytes := p.bytes + fi.size }) }
  | some msg =>
    { stats with errors := insertErr stats.errors (ck, fi.profile, fi.path) msg }

/-- The body of the directory-removal loop: `fs::remove_dir_all` outcome
supplied by the oracle `removeDirAll`; errors are keyed with the fixed crate
key `"incremental"` and no `per_crate` entry is made on success. -/
def removeOneDir (removeDirAll : String → Option String)
    (stats : CleanupStats) (di : DirToRemove) : CleanupStats :=
  match removeDirAll di.path with
  | none =>
    { stats with
      files := stats.files + 1
      bytes := stats.bytes + di.size
      per_profile := updAt stats.per_profile di.profile
        (fun p => { p with files := p.files + 1, bytes := p.bytes + di.size }) }
  | some msg =>
    { stats with errors := insertErr stats.errors ("incremental", di.profile, di.path) msg }

/-- `CleanCommand::actually_remove_files`: iterate the selected removal
candidates (`iter().filter(|_| sel.remove_files)` keeps the whole list or
none of it), attempting each deletion independently, and build a fresh
`CleanupStats` of outcomes. -/
def actually_remove_files (removeFile removeDirAll : String → Option String)
    (stats : CleanupStats) (sel : RemovalSelection) : CleanupStats :=
  let afterFiles :=
    (stats.files_to_remove.filter (fun _ => sel.remove_files)).foldl
      (removeOneFile removeFile) {}
  (stats.dirs_to_remove.filter (fun _ => sel.remove_dirs)).foldl
    (removeOneDir removeDirAll) afterFiles

/-! ### `TraceParser::extract_artifact_path` (src/trace_parser.rs) -/

/-- Does `pat` occur as a contiguous sublist of `l`? -/
def containsSublist (pat : List Char) : List Char → Bool
  | [] => pat.isEmpty
  | x :: xs => pat.isPrefixOf (x :: xs) || containsSublist pat xs

/-- `str::contains(pat)`. -/
def containsSubstring (s pat : String) : Bool :=
  containsSublist pat.data s.data

/-- The per-segment test of `extract_artifact_path`: the segment, read as a
path, carries an allow-listed extension and lies under the target
directory. -/
def isArtifactCandidate (targetDir part : String) : Bool :=
  match extension? part with
  | some ext =>
    (ext = "rlib" ∨ ext = "rmeta" ∨ ext = "so" ∨ ext = "dylib" ∨ ext = "dll") &&
      pathStartsWith part targetDir
  | none => false

/-- `TraceParser::extract_artifact_path`: lines without `"mtime"` yield
nothing; otherwise the line is split on `'"'` and the segments are scanned
in reverse (`parts.iter().rev()`) for the first candidate. -/
def extract_artifact_path (targetDir line : String) : Option String :=
  if !containsSubstring line "mtime" then none
  else
    let parts := strSplit '"' line
    if parts.length < 2 then none
    else parts.reverse.find? (isArtifactCandidate targetDir)

/-- The claim's reading of the same function, for comparison: only the
*quoted* substrings of the line (the odd-indexed pieces of the `'"'` split)
are scanned, right to left. -/
def extract_artifact_path_quoted_only (targetDir line : String) : Option String :=
  if !containsSubstring line "mtime" then none
  else
    let parts := strSplit '"' line
    if parts.length < 2 then none
    else
      let quoted := (parts.enum.filter (fun p => p.1 % 2 = 1)).map (·.2)
      quoted.reverse.find? (isArtifactCandidate targetDir)

/-! ### `TraceParser::trace`, completion behaviour

The `TraceParser` actually compiled with `src/clean/mod.rs` is not part of
the sources under `src/`: both `clean/mod.rs` and `clean.rs` invoke
`parser.trace(project_dir, cmd)` (two arguments) and read
`trace_result.used_by`, while the `src/trace_parser.rs` present is a stale
ancestor whose `trace` takes mode/profile/feature arguments and whose
`TraceResult` has no `used_by` field.  The completion behaviour below is
therefore modelled from the spec. -/

/-- The artifact-collection part of the trace loop: each stderr line is fed
to `extract_artifact_path` and hits are inserted into the used set
(`HashSet` as a duplicate-free list in first-seen order). -/
def collectUsedArtifacts (targetDir : String) (stderrLines : List String) : List String :=
  stderrLines.foldl
    (fun acc line =>
      match extract_artifact_path targetDir line with
      | some p => if acc.contains p then acc else acc ++ [p]
      | none => acc)
    []

/-- `TraceResult` of the current trace parser (the `used_by` reporting map
is irrelevant to the claims and omitted). -/
structure TraceResultM where
  used_artifacts : List String
deriving Repr, DecidableEq

/-- Outcome of running the traced build to completion: the collected result
together with whether the process exited successfully. -/
structure TraceOutcome where
  result : TraceResultM
  exitSuccess : Bool
deriving Repr, DecidableEq

/-- Modelled from the spec: the completion contract of the current
`TraceParser::trace` (missing from `src/`): after both streams close it
waits for process exit; a non-zero exit status is a reported failure, but
the `used_artifacts` collected so far are still returned rather than
discarded. -/
def traceModel (targetDir : String) (stderrLines : List String) (exitCode : Nat) :
    TraceOutcome :=
  { result := { used_artifacts := collectUsedArtifacts targetDir stderrLines }
    exitSuccess := exitCode = 0 }

/-! ### Derived classification predicates (read off the branch structure of
`clean_with_trace_result`) -/

/-- A deps-directory entry is *kept*: a plain file with a recognized
artifact stem that is either stem-matched by a traced artifact or protected
by a root build output. -/
def keptCond (stems prot : List String) (e : FsEntry) : Bool :=
  !e.isDir &&
    match artifact_stem e.name with
    | none => false
    | some stem => stems.contains stem || prot.contains (crate_key e.name)

/-- A deps-directory entry is *marked for removal*: a plain file with a
recognized artifact stem that is neither stem-matched nor protected. -/
def removeCond (stems prot : List String) (e : FsEntry) : Bool :=
  !e.isDir &&
    match artifact_stem e.name with
    | none => false
    | some stem => !stems.contains stem && !prot.contains (crate_key e.name)

/-- The removal record an entry contributes, if any. -/
def removeItem? (depsDir profile : String) (stems prot : List String) (e : FsEntry) :
    Option FileToRemove :=
  if removeCond stems prot e then
    some { path := joinPath depsDir e.name, size := e.size, profile := profile }
  else none

/-- The contribution of an entry to `used_bytes`. -/
def keptSize (stems prot : List String) (e : FsEntry) : Nat :=
  if keptCond stems prot e then e.size else 0

/-- The contribution of an entry to the removal `bytes` counter. -/
def removeSize (stems prot : List String) (e : FsEntry) : Nat :=
  if removeCond stems prot e then e.size else 0

/-- The stale sessions of one crate's group: everything but the newest
session, and nothing at all for groups of at most one session (read off the
group loop of `clean_incremental_dir`). -/
def staleOf (gl : List IncEntry) : List IncEntry :=
  if gl.length ≤ 1 then [] else (sortByMtimeDesc gl).drop 1

end CargoClean

namespace CargoClean

/-! ## Claims C7, C8: the merge algebra of `CleanupStats` -/

/-- **C7** (confirmed): merging `CleanupStats` is associative field-for-field:
scalar counters sum, the `per_crate`/`per_profile` maps merge key-wise, the
removal lists concatenate, and the errors map merges with last write
winning — all of which associate. -/
theorem c7_merge_assoc (a b c : CleanupStats) :
    (a.merge_from b).merge_from c = a.merge_from (b.merge_from c) := by
  rcases a with ⟨af, ab, au, apc, app, ae, afr, adr⟩
  rcases b with ⟨bf, bb, bu, bpc, bpp, be, bfr, bdr⟩
  rcases c with ⟨cf, cb, cu, cpc, cpp, ce, cfr, cdr⟩
  simp only [CleanupStats.merge_from, CleanupStats.mk.injEq]
  refine ⟨by omega, by omega, by omega, ?_, ?_, ?_, by simp, by simp⟩
  · funext k
    simp [Nat.add_assoc]
  · funext k
    simp [Nat.add_assoc]
  · funext k
    unfold extendErr
    cases ce k <;> cases be k <;> rfl

/-- **C8 counterexample**: merging is *not* commutative field-for-field as
claimed — the removal candidate lists concatenate in argument order, so two
stats with different singleton `files_to_remove` lists merge to differently
ordered lists. -/
theorem c8_merge_comm_counterexample :
    ({ files_to_remove := [{ path := "a", size := 1, profile := "p" }] } :
        CleanupStats).merge_from
        { files_to_remove := [{ path := "b", size := 2, profile := "q" }] }
      ≠ ({ files_to_remove := [{ path := "b", size := 2, profile := "q" }] } :
          CleanupStats).merge_from
          { files_to_remove := [{ path := "a", size := 1, profile := "p" }] } := by
  intro h
  have h2 := congrArg CleanupStats.files_to_remove h
  simp [CleanupStats.merge_from] at h2

/-- **C8** (amended): merging is commutative on the summed fields — `files`,
`bytes`, `used_bytes`, and the key-wise-summed `per_crate`/`per_profile`
maps; the `files_to_remove`/`dirs_to_remove` lists of the two merge orders
are permutations of each other (concatenations in opposite order); and the
errors maps agree whenever no key carries an error on both sides (on a
collision the right operand wins, so the orders differ there). -/
theorem c8_merge_comm (a b : CleanupStats) :
    (a.merge_from b).files = (b.merge_from a).files
    ∧ (a.merge_from b).bytes = (b.merge_from a).bytes
    ∧ (a.merge_from b).used_bytes = (b.merge_from a).used_bytes
    ∧ (a.merge_from b).per_crate = (b.merge_from a).per_crate
    ∧ (a.merge_from b).per_profile = (b.merge_from a).per_profile
    ∧ (a.merge_from b).files_to_remove.Perm (b.merge_from a).files_to_remove
    ∧ (a.merge_from b).dirs_to_remove.Perm (b.merge_from a).dirs_to_remove
    ∧ ((∀ k, a.errors k = none ∨ b.errors k = none) →
        (a.merge_from b).errors = (b.merge_from a).errors) := by
  refine ⟨by simp [CleanupStats.merge_from, Nat.add_comm],
    by simp [CleanupStats.merge_from, Nat.add_comm],
    by simp [CleanupStats.merge_from, Nat.add_comm], ?_, ?_,
    List.perm_append_comm, List.perm_append_comm, ?_⟩
  · funext k
    simp [CleanupStats.merge_from, Nat.add_comm]
  · funext k
    simp [CleanupStats.merge_from, Nat.add_comm]
  · intro h
    funext k
    rcases h k with h1 | h1 <;>
      simp only [CleanupStats.merge_from, extendErr] <;>
      cases hb : b.errors k <;> cases ha : a.errors k <;> simp_all

/-- Witness for C8 at concrete stats with disjoint errors (none at all):
both merge orders agree on the summed fields and on errors, and the lists
are permutations. -/
theorem c8_merge_comm_witness :
    (({ files := 1, files_to_remove := [{ path := "a", size := 1, profile := "p" }] } :
        CleanupStats).merge_from
        { files := 2, files_to_remove := [{ path := "b", size := 2, profile := "q" }] }).files
      = (({ files := 2, files_to_remove := [{ path := "b", size := 2, profile := "q" }] } :
          CleanupStats).merge_from
          { files := 1, files_to_remove := [{ path := "a", size := 1, profile := "p" }] }).files
    ∧ (({ files := 1, files_to_remove := [{ path := "a", size := 1, profile := "p" }] } :
        CleanupStats).merge_from
        { files := 2, files_to_remove := [{ path := "b", size := 2, profile := "q" }] }
        ).files_to_remove.Perm
        (({ files := 2, files_to_remove := [{ path := "b", size := 2, profile := "q" }] } :
          CleanupStats).merge_from
          { files := 1, files_to_remove := [{ path := "a", size := 1, profile := "p" }] }
          ).files_to_remove
    ∧ (({ files := 1, files_to_remove := [{ path := "a", size := 1, profile := "p" }] } :
        CleanupStats).merge_from
        { files := 2, files_to_remove := [{ path := "b", size := 2, profile := "q" }] }).errors
      = (({ files := 2, files_to_remove := [{ path := "b", size := 2, profile := "q" }] } :
          CleanupStats).merge_from
          { files := 1, files_to_remove := [{ path := "a", size := 1, profile := "p" }] }).errors := by
  have h := c8_merge_comm
    { files := 1, files_to_remove := [{ path := "a", size := 1, profile := "p" }] }
    { files := 2, files_to_remove := [{ path := "b", size := 2, profile := "q" }] }
  exact ⟨h.1, h.2.2.2.2.2.1, h.2.2.2.2.2.2.2 (fun _ => Or.inl rfl)⟩

/-! ## Claim C5: trace completion on a failing build -/

/-- **C5** (confirmed against the spec-modelled trace): when the traced
process exits non-zero, the outcome reports the failure but still carries
the `used_artifacts` collected from the diagnostic lines — identical to
what the same lines yield on a successful run; the partial liveness
information is not discarded. -/
theorem c5_trace_partial (targetDir : String) (stderrLines : List String) (code : Nat)
    (h : code ≠ 0) :
    (traceModel targetDir stderrLines code).exitSuccess = false
    ∧ (traceModel targetDir stderrLines code).result
        = (traceModel targetDir stderrLines 0).result := by
  exact ⟨by simp [traceModel, h], rfl⟩

/-- Witness for C5: a build that logged one artifact line and exited with
status 101 still reports that artifact as used. -/
theorem c5_trace_partial_witness :
    (traceModel "/project/target"
      ["max output mtime for \"foo\" is \"/project/target/debug/deps/libfoo-abc123.rlib\" 123s",
        "   Compiling foo v0.1.0"] 101).exitSuccess = false
    ∧ (traceModel "/project/target"
      ["max output mtime for \"foo\" is \"/project/target/debug/deps/libfoo-abc123.rlib\" 123s",
        "   Compiling foo v0.1.0"] 101).result.used_artifacts
      = ["/project/target/debug/deps/libfoo-abc123.rlib"] := by
  have h := c5_trace_partial "/project/target"
    ["max output mtime for \"foo\" is \"/project/target/debug/deps/libfoo-abc123.rlib\" 123s",
      "   Compiling foo v0.1.0"] 101 (by decide)
  refine ⟨h.1, ?_⟩
  rw [h.2]
  decide

/-! ## Lemmas: characterizing `clean_with_trace_result` -/

theorem process_files_to_remove (depsDir : String) (stems prot : List String)
    (profile : String) (s : CleanupStats) (e : FsEntry) :
    (processDepsEntry depsDir stems prot profile s e).files_to_remove
      = s.files_to_remove ++ (removeItem? depsDir profile stems prot e).toList := by
  rcases e with ⟨n, d, sz⟩
  cases d
  · cases hst : artifact_stem n with
    | none => simp [processDepsEntry, removeItem?, removeCond, hst]
    | some st =>
      by_cases hs : st ∈ stems <;> by_cases hp : crate_key n ∈ prot <;>
        simp [processDepsEntry, removeItem?, removeCond, hst, hs, hp]
  · simp [processDepsEntry, removeItem?, removeCond]

theorem process_used_bytes (depsDir : String) (stems prot : List String)
    (profile : String) (s : CleanupStats) (e : FsEntry) :
    (processDepsEntry depsDir stems prot profile s e).used_bytes
      = s.used_bytes + keptSize stems prot e := by
  rcases e with ⟨n, d, sz⟩
  cases d
  · cases hst : artifact_stem n with
    | none => simp [processDepsEntry, keptSize, keptCond, hst]
    | some st =>
      by_cases hs : st ∈ stems <;> by_cases hp : crate_key n ∈ prot <;>
        simp [processDepsEntry, keptSize, keptCond, hst, hs, hp]
  · simp [processDepsEntry, keptSize, keptCond]

theorem process_files (depsDir : String) (stems prot : List String)
    (profile : String) (s : CleanupStats) (e : FsEntry) :
    (processDepsEntry depsDir stems prot profile s e).files
      = s.files + (if removeCond stems prot e then 1 else 0) := by
  rcases e with ⟨n, d, sz⟩
  cases d
  · cases hst : artifact_stem n with
    | none => simp [processDepsEntry, removeCond, hst]
    | some st =>
      by_cases hs : st ∈ stems <;> by_cases hp : crate_key n ∈ prot <;>
        simp [processDepsEntry, removeCond, hst, hs, hp]
  · simp [processDepsEntry, removeCond]

theorem process_bytes (depsDir : String) (stems prot : List String)
    (profile : String) (s : CleanupStats) (e : FsEntry) :
    (processDepsEntry depsDir stems prot profile s e).bytes
      = s.bytes + removeSize stems prot e := by
  rcases e with ⟨n, d, sz⟩
  cases d
  · cases hst : artifact_stem n with
    | none => simp [processDepsEntry, removeSize, removeCond, hst]
    | some st =>
      by_cases hs : st ∈ stems <;> by_cases hp : crate_key n ∈ prot <;>
        simp [processDepsEntry, removeSize, removeCond, hst, hs, hp]
  · simp [processDepsEntry, removeSize, removeCond]

theorem foldl_files_to_remove (depsDir : String) (stems prot : List String)
    (profile : String) (l : List FsEntry) (s : CleanupStats) :
    (l.foldl (processDepsEntry depsDir stems prot profile) s).files_to_remove
      = s.files_to_remove ++ l.filterMap (removeItem? depsDir profile stems prot) := by
  induction l generalizing s with
  | nil => simp
  | cons a l ih =>
    rw [List.foldl_cons, ih, process_files_to_remove, List.filterMap_cons]
    cases removeItem? depsDir profile stems prot a <;> simp

theorem foldl_used_bytes (depsDir : String) (stems prot : List String)
    (profile : String) (l : List FsEntry) (s : CleanupStats) :
    (l.foldl (processDepsEntry depsDir stems prot profile) s).used_bytes
      = s.used_bytes + (l.map (keptSize stems prot)).sum := by
  induction l generalizing s with
  | nil => simp
  | cons a l ih =>
    rw [List.foldl_cons, ih, process_used_bytes]
    simp [Nat.add_assoc]

theorem foldl_files (depsDir : String) (stems prot : List String)
    (profile : String) (l : List FsEntry) (s : CleanupStats) :
    (l.foldl (processDepsEntry depsDir stems prot profile) s).files
      = s.files + l.countP (removeCond stems prot) := by
  induction l generalizing s with
  | nil => simp
  | cons a l ih =>
    rw [List.foldl_cons, ih, process_files, List.countP_cons]
    cases h : removeCond stems prot a <;> simp [h] <;> omega

theorem foldl_bytes (depsDir : String) (stems prot : List String)
    (profile : String) (l : List FsEntry) (s : CleanupStats) :
    (l.foldl (processDepsEntry depsDir stems prot profile) s).bytes
      = s.bytes + (l.map (removeSize stems prot)).sum := by
  induction l generalizing s with
  | nil => simp
  | cons a l ih =>
    rw [List.foldl_cons, ih, process_bytes]
    simp [Nat.add_assoc]

theorem joinPath_inj {d n₁ n₂ : String} (h : joinPath d n₁ = joinPath d n₂) : n₁ = n₂ := by
  have h2 := congrArg String.data h
  simp only [joinPath, String.data_append] at h2
  exact String.ext (List.append_cancel_left h2)

theorem clean_files_to_remove (depsDir : String) (arts : List TracedArtifact)
    (profile : String) (profE entries : List FsEntry) :
    (clean_with_trace_result depsDir arts profile profE entries).files_to_remove
      = entries.filterMap
          (removeItem? depsDir profile (usedStems depsDir arts) (protectedCrateNames profE)) := by
  unfold clean_with_trace_result
  rw [foldl_files_to_remove]
  rfl

theorem clean_used_bytes (depsDir : String) (arts : List TracedArtifact)
    (profile : String) (profE entries : List FsEntry) :
    (clean_with_trace_result depsDir arts profile profE entries).used_bytes
      = (entries.map (keptSize (usedStems depsDir arts) (protectedCrateNames profE))).sum := by
  unfold clean_with_trace_result
  rw [foldl_used_bytes]
  simp

theorem clean_files (depsDir : String) (arts : List TracedArtifact)
    (profile : String) (profE entries : List FsEntry) :
    (clean_with_trace_result depsDir arts profile profE entries).files
      = entries.countP (removeCond (usedStems depsDir arts) (protectedCrateNames profE)) := by
  unfold clean_with_trace_result
  rw [foldl_files]
  simp

theorem clean_bytes (depsDir : String) (arts : List TracedArtifact)
    (profile : String) (profE entries : List FsEntry) :
    (clean_with_trace_result depsDir arts profile profE entries).bytes
      = (entries.map (removeSize (usedStems depsDir arts) (protectedCrateNames profE))).sum := by
  unfold clean_with_trace_result
  rw [foldl_bytes]
  simp

theorem removeItem?_eq_some {depsDir profile : String} {stems prot : List String}
    {e : FsEntry} {f : FileToRemove} :
    removeItem? depsDir profile stems prot e = some f ↔
      removeCond stems prot e = true ∧
        f = { path := joinPath depsDir e.name, size := e.size, profile := profile } := by
  unfold removeItem?
  by_cases h : removeCond stems prot e = true <;> simp [h] <;> exact eq_comm

theorem mem_removePaths {depsDir profile : String} {stems prot : List String}
    {entries : List FsEntry} {n : String} :
    (joinPath depsDir n ∈
      (entries.filterMap (removeItem? depsDir profile stems prot)).map (fun f => f.path)) ↔
      ∃ e ∈ entries, removeCond stems prot e = true ∧ e.name = n := by
  rw [List.mem_map]
  constructor
  · rintro ⟨f, hf, hpath⟩
    rcases List.mem_filterMap.mp hf with ⟨e, he, hre⟩
    rcases removeItem?_eq_some.mp hre with ⟨hrc, rfl⟩
    exact ⟨e, he, hrc, joinPath_inj hpath⟩
  · rintro ⟨e, he, hrc, rfl⟩
    exact ⟨{ path := joinPath depsDir e.name, size := e.size, profile := profile },
      List.mem_filterMap.mpr ⟨e, he, removeItem?_eq_some.mpr ⟨hrc, rfl⟩⟩, rfl⟩

theorem removeCond_isDir {stems prot : List String} {e : FsEntry}
    (h : removeCond stems prot e = true) : e.isDir = false := by
  by_contra hd
  rw [Bool.not_eq_false] at hd
  simp [removeCond, hd] at h

theorem removeCond_iff {stems prot : List String} {e : FsEntry} {st : String}
    (hd : e.isDir = false) (hst : artifact_stem e.name = some st) :
    removeCond stems prot e = true ↔ st ∉ stems ∧ crate_key e.name ∉ prot := by
  simp [removeCond, hd, hst]

theorem keptCond_iff {stems prot : List String} {e : FsEntry} {st : String}
    (hd : e.isDir = false) (hst : artifact_stem e.name = some st) :
    keptCond stems prot e = true ↔ st ∈ stems ∨ crate_key e.name ∈ prot := by
  simp [keptCond, hd, hst]

theorem process_skip {depsDir profile : String} {stems prot : List String} {e : FsEntry}
    (hst : artifact_stem e.name = none) (s : CleanupStats) :
    processDepsEntry depsDir stems prot profile s e = s := by
  rcases e with ⟨n, d, sz⟩
  cases d <;> simp [processDepsEntry, hst]

theorem foldl_skip_erase {α β : Type _} [DecidableEq α] (f : β → α → β) (e : α)
    (hid : ∀ acc, f acc e = acc) :
    ∀ (l : List α) (init : β), (l.erase e).foldl f init = l.foldl f init := by
  intro l
  induction l with
  | nil => intro _; rfl
  | cons a l ih =>
    intro init
    by_cases h : a = e
    · subst h
      rw [List.erase_cons_head, List.foldl_cons, hid]
    · simp only [List.erase_cons, beq_iff_eq, if_neg h, List.foldl_cons]
      exact ih (f init a)

/-! ## Claims C1, C2, C3, C10: the liveness correlator -/

/-- **C1** (amended): for every plain file in a scanned deps directory whose
name yields an artifact stem, `clean_with_trace_result` keeps it (it never
appears in `files_to_remove`) exactly when its stem equals the
`artifact_stem` of some traced used artifact in the same deps directory
**or** its crate key is protected by a root build output in the parent
profile directory; and `used_bytes` accumulates exactly the sizes of the
kept files. -/
theorem c1_stem_sharing (depsDir profile : String) (arts : List TracedArtifact)
    (profE entries : List FsEntry) (e : FsEntry) (st : String)
    (he : e ∈ entries) (hd : e.isDir = false) (hst : artifact_stem e.name = some st) :
    ((st ∈ usedStems depsDir arts ∨ crate_key e.name ∈ protectedCrateNames profE) ↔
      joinPath depsDir e.name ∉
        (clean_with_trace_result depsDir arts profile profE entries).files_to_remove.map
          (fun f => f.path))
    ∧ (clean_with_trace_result depsDir arts profile profE entries).used_bytes
        = (entries.map (keptSize (usedStems depsDir arts) (protectedCrateNames profE))).sum := by
  refine ⟨?_, clean_used_bytes _ _ _ _ _⟩
  rw [clean_files_to_remove, mem_removePaths]
  constructor
  · intro hcond
    rintro ⟨e', he', hrc, hname⟩
    have hd' := removeCond_isDir hrc
    have hst' : artifact_stem e'.name = some st := by rw [hname]; exact hst
    rcases (removeCond_iff hd' hst').mp hrc with ⟨hs, hp⟩
    have hck : crate_key e'.name = crate_key e.name := by rw [hname]
    rcases hcond with h | h
    · exact hs h
    · exact hp (hck ▸ h)
  · intro hnot
    by_contra hcond
    push_neg at hcond
    exact hnot ⟨e, he, (removeCond_iff hd hst).mpr hcond, rfl⟩

/-- Witness for C1 on the spec's own scenario: with `libfoo-abc123.rlib`
traced, the untraced siblings `libfoo-abc123.rmeta` and `foo-abc123.o` are
kept, `libbar-def456.rlib` is removed, and `used_bytes` totals the three
kept sizes. -/
theorem c1_stem_sharing_witness :
    ((clean_with_trace_result "t/debug/deps" [⟨"t/debug/deps", "libfoo-abc123.rlib"⟩]
        "debug" [] [⟨"libfoo-abc123.rlib", false, 10⟩, ⟨"libfoo-abc123.rmeta", false, 20⟩,
          ⟨"foo-abc123.o", false, 30⟩, ⟨"libbar-def456.rlib", false, 40⟩]).used_bytes = 60)
    ∧ ("t/debug/deps/foo-abc123.o" ∉
        (clean_with_trace_result "t/debug/deps" [⟨"t/debug/deps", "libfoo-abc123.rlib"⟩]
          "debug" [] [⟨"libfoo-abc123.rlib", false, 10⟩, ⟨"libfoo-abc123.rmeta", false, 20⟩,
            ⟨"foo-abc123.o", false, 30⟩, ⟨"libbar-def456.rlib", false, 40⟩]).files_to_remove.map
          (fun f => f.path))
    ∧ ("t/debug/deps/libbar-def456.rlib" ∈
        (clean_with_trace_result "t/debug/deps" [⟨"t/debug/deps", "libfoo-abc123.rlib"⟩]
          "debug" [] [⟨"libfoo-abc123.rlib", false, 10⟩, ⟨"libfoo-abc123.rmeta", false, 20⟩,
            ⟨"foo-abc123.o", false, 30⟩, ⟨"libbar-def456.rlib", false, 40⟩]).files_to_remove.map
          (fun f => f.path)) := by
  have h1 := c1_stem_sharing "t/debug/deps" "debug" [⟨"t/debug/deps", "libfoo-abc123.rlib"⟩]
    [] [⟨"libfoo-abc123.rlib", false, 10⟩, ⟨"libfoo-abc123.rmeta", false, 20⟩,
      ⟨"foo-abc123.o", false, 30⟩, ⟨"libbar-def456.rlib", false, 40⟩]
    ⟨"foo-abc123.o", false, 30⟩ "foo-abc123" (by decide) (by decide) (by decide)
  have h2 := c1_stem_sharing "t/debug/deps" "debug" [⟨"t/debug/deps", "libfoo-abc123.rlib"⟩]
    [] [⟨"libfoo-abc123.rlib", false, 10⟩, ⟨"libfoo-abc123.rmeta", false, 20⟩,
      ⟨"foo-abc123.o", false, 30⟩, ⟨"libbar-def456.rlib", false, 40⟩]
    ⟨"libbar-def456.rlib", false, 40⟩ "bar-def456" (by decide) (by decide) (by decide)
  refine ⟨by rw [h1.2]; decide, h1.1.mp (by decide), ?_⟩
  by_contra hmem
  exact absurd (h2.1.mpr hmem) (by decide)

/-- **C1 counterexample** to the claim as stated: keeping is *not*
equivalent to stem-matching alone.  With no traced artifacts at all
(`used_stems` empty) but a root build output `bar` in the profile
directory, the file `libbar-def456.rlib` is kept — its size is counted into
`used_bytes` and `files_to_remove` stays empty. -/
theorem c1_stem_sharing_counterexample :
    usedStems "t/debug/deps" [] = []
    ∧ (clean_with_trace_result "t/debug/deps" [] "debug" [⟨"bar", false, 0⟩]
        [⟨"libbar-def456.rlib", false, 7⟩]).files_to_remove = []
    ∧ (clean_with_trace_result "t/debug/deps" [] "debug" [⟨"bar", false, 0⟩]
        [⟨"libbar-def456.rlib", false, 7⟩]).used_bytes = 7
    ∧ artifact_stem "libbar-def456.rlib" = some "bar-def456" := by
  refine ⟨by decide, by decide, by decide, by decide⟩

/-- **C2** (amended): every plain file directly in the parent profile
directory contributes its derived crate name (stem, `lib` stripped, `-`
normalized to `_`) to the protected set; and every plain deps file *with a
recognized artifact stem* whose crate key is protected is kept: it never
appears in `files_to_remove`, and it contributes its full size to
`used_bytes`, which totals exactly the kept sizes. -/
theorem c2_root_output_protection (depsDir profile : String) (arts : List TracedArtifact)
    (profE entries : List FsEntry) :
    (∀ pe ∈ profE, pe.isDir = false →
      normalizeHyphens (stripLib (fileStem pe.name)) ∈ protectedCrateNames profE)
    ∧ (∀ e ∈ entries, e.isDir = false → ∀ st, artifact_stem e.name = some st →
        crate_key e.name ∈ protectedCrateNames profE →
          (joinPath depsDir e.name ∉
            (clean_with_trace_result depsDir arts profile profE entries).files_to_remove.map
              (fun f => f.path))
          ∧ keptSize (usedStems depsDir arts) (protectedCrateNames profE) e = e.size
          ∧ (clean_with_trace_result depsDir arts profile profE entries).used_bytes
              = (entries.map
                  (keptSize (usedStems depsDir arts) (protectedCrateNames profE))).sum) := by
  constructor
  · intro pe hpe hdir
    exact List.mem_filterMap.mpr ⟨pe, hpe, by simp [protectedCrateNames, hdir]⟩
  · intro e he hd st hst hprot
    refine ⟨?_, ?_, clean_used_bytes _ _ _ _ _⟩
    · rw [clean_files_to_remove, mem_removePaths]
      rintro ⟨e', he', hrc, hname⟩
      have hd' := removeCond_isDir hrc
      have hst' : artifact_stem e'.name = some st := by rw [hname]; exact hst
      rcases (removeCond_iff hd' hst').mp hrc with ⟨_, hp⟩
      rw [hname] at hp
      exact hp hprot
    · have hk : keptCond (usedStems depsDir arts) (protectedCrateNames profE) e = true :=
        (keptCond_iff hd hst).mpr (Or.inr hprot)
      simp [keptSize, hk]

/-- Witness for C2: a root output `bar` in the profile directory protects
the untraced `libbar-def456.rlib` in deps. -/
theorem c2_root_output_protection_witness :
    ("bar" ∈ protectedCrateNames [⟨"bar", false, 0⟩])
    ∧ ("t/debug/deps/libbar-def456.rlib" ∉
        (clean_with_trace_result "t/debug/deps" [] "debug" [⟨"bar", false, 0⟩]
          [⟨"libbar-def456.rlib", false, 40⟩]).files_to_remove.map (fun f => f.path))
    ∧ (clean_with_trace_result "t/debug/deps" [] "debug" [⟨"bar", false, 0⟩]
        [⟨"libbar-def456.rlib", false, 40⟩]).used_bytes = 40 := by
  have h := (c2_root_output_protection "t/debug/deps" "debug" []
    [⟨"bar", false, 0⟩] [⟨"libbar-def456.rlib", false, 40⟩]).2
    ⟨"libbar-def456.rlib", false, 40⟩ (by decide) (by decide) "bar-def456"
    (by decide) (by decide)
  refine ⟨(c2_root_output_protection "t/debug/deps" "debug" []
    [⟨"bar", false, 0⟩] [⟨"libbar-def456.rlib", false, 40⟩]).1
      ⟨"bar", false, 0⟩ (by decide) (by decide), h.1, by rw [h.2.2]; decide⟩

/-- **C2 counterexample** to the claim as stated: a deps file whose crate
key is protected but whose name yields *no* artifact stem is skipped, not
kept — nothing of its size reaches `used_bytes` (the claim's "counted into
used_bytes" fails), though it indeed never appears in `files_to_remove`. -/
theorem c2_root_output_protection_counterexample :
    crate_key "serde.rlib" ∈ protectedCrateNames [⟨"serde", false, 0⟩]
    ∧ artifact_stem "serde.rlib" = none
    ∧ (clean_with_trace_result "t/debug/deps" [] "debug" [⟨"serde", false, 0⟩]
        [⟨"serde.rlib", false, 5⟩]).used_bytes = 0
    ∧ (clean_with_trace_result "t/debug/deps" [] "debug" [⟨"serde", false, 0⟩]
        [⟨"serde.rlib", false, 5⟩]).files_to_remove = [] := by
  refine ⟨by decide, by decide, by decide, by decide⟩

/-- **C3** (confirmed): a deps-directory entry whose name yields no artifact
stem is skipped entirely: erasing it from the listing leaves the whole
result unchanged (so it contributes nothing to `used_bytes`, to the
`files`/`bytes` removal counters, or to any other field), and its path never
appears in `files_to_remove`. -/
theorem c3_unrecognized_name_safety (depsDir profile : String) (arts : List TracedArtifact)
    (profE entries : List FsEntry) (e : FsEntry)
    (he : e ∈ entries) (hst : artifact_stem e.name = none) :
    clean_with_trace_result depsDir arts profile profE (entries.erase e)
      = clean_with_trace_result depsDir arts profile profE entries
    ∧ joinPath depsDir e.name ∉
        (clean_with_trace_result depsDir arts profile profE entries).files_to_remove.map
          (fun f => f.path) := by
  constructor
  · unfold clean_with_trace_result
    exact foldl_skip_erase _ e (fun acc => process_skip hst acc) entries {}
  · rw [clean_files_to_remove, mem_removePaths]
    rintro ⟨e', he', hrc, hname⟩
    have hst' : artifact_stem e'.name = none := by rw [hname]; exact hst
    simp [removeCond, hst'] at hrc

/-- Witness for C3: a `README.txt` in the deps directory is invisible to the
scan — removing it from the listing changes nothing, and it is never a
removal candidate. -/
theorem c3_unrecognized_name_safety_witness :
    clean_with_trace_result "t/debug/deps" [] "debug" []
        ([⟨"README.txt", false, 9⟩, ⟨"libbar-def456.rlib", false, 4⟩].erase
          ⟨"README.txt", false, 9⟩)
      = clean_with_trace_result "t/debug/deps" [] "debug" []
          [⟨"README.txt", false, 9⟩, ⟨"libbar-def456.rlib", false, 4⟩]
    ∧ "t/debug/deps/README.txt" ∉
        (clean_with_trace_result "t/debug/deps" [] "debug" []
          [⟨"README.txt", false, 9⟩, ⟨"libbar-def456.rlib", false, 4⟩]).files_to_remove.map
          (fun f => f.path) :=
  c3_unrecognized_name_safety "t/debug/deps" "debug" [] []
    [⟨"README.txt", false, 9⟩, ⟨"libbar-def456.rlib", false, 4⟩]
    ⟨"README.txt", false, 9⟩ (by decide) (by decide)

/-! ## Lemmas: characterizing `clean_incremental_dir` -/

theorem foldl_mark_dirs (incDir profile : String) (l : List IncEntry) (s : CleanupStats) :
    (l.foldl (markStaleSession incDir profile) s).dirs_to_remove
      = s.dirs_to_remove ++ l.map (fun e =>
          { path := joinPath incDir e.name, size := e.size, profile := profile }) := by
  induction l generalizing s with
  | nil => simp
  | cons a l ih =>
    rw [List.foldl_cons, ih]
    simp [markStaleSession]

theorem foldl_groups_dirs (incDir profile : String)
    (gs : List (String × List IncEntry)) (s : CleanupStats) :
    (gs.foldl
        (fun stats g =>
          if g.2.length ≤ 1 then stats
          else ((sortByMtimeDesc g.2).drop 1).foldl (markStaleSession incDir profile) stats)
        s).dirs_to_remove
      = s.dirs_to_remove ++
          (gs.map (fun g => (staleOf g.2).map (fun e =>
            ({ path := joinPath incDir e.name, size := e.size, profile := profile } :
              DirToRemove)))).join := by
  induction gs generalizing s with
  | nil => simp
  | cons g gs ih =>
    rw [List.foldl_cons, ih]
    by_cases hlen : g.2.length ≤ 1
    · simp [hlen, staleOf]
    · simp only [if_neg hlen, foldl_mark_dirs, staleOf, List.map_cons, List.join_cons,
        List.append_assoc]

theorem incremental_dirs (incDir profile : String) (entries : List IncEntry) :
    (clean_incremental_dir true incDir entries profile).dirs_to_remove
      = ((groupByCrate (entries.filter (·.isDir))).map (fun g => (staleOf g.2).map (fun e =>
          ({ path := joinPath incDir e.name, size := e.size, profile := profile } :
            DirToRemove)))).join := by
  unfold clean_incremental_dir
  rw [if_neg (by simp)]
  rw [foldl_groups_dirs]
  rfl

theorem mem_incremental_dirs {incDir profile : String} {entries : List IncEntry}
    {d : DirToRemove} :
    d ∈ (clean_incremental_dir true incDir entries profile).dirs_to_remove ↔
      ∃ g ∈ groupByCrate (entries.filter (·.isDir)), ∃ x ∈ staleOf g.2,
        d = { path := joinPath incDir x.name, size := x.size, profile := profile } := by
  rw [incremental_dirs]
  simp only [List.mem_join, List.mem_map]
  constructor
  · rintro ⟨ds, ⟨g, hg, rfl⟩, hd⟩
    rcases List.mem_map.mp hd with ⟨x, hx, rfl⟩
    exact ⟨g, hg, x, hx, rfl⟩
  · rintro ⟨g, hg, x, hx, rfl⟩
    exact ⟨_, ⟨g, hg, rfl⟩, List.mem_map.mpr ⟨x, hx, rfl⟩⟩

theorem insertByMtimeDesc_perm (a : IncEntry) (l : List IncEntry) :
    (insertByMtimeDesc a l).Perm (a :: l) := by
  induction l with
  | nil => exact List.Perm.refl _
  | cons b bs ih =>
    unfold insertByMtimeDesc
    by_cases h : b.mtime ≤ a.mtime
    · rw [if_pos h]
    · rw [if_neg h]
      exact (ih.cons b).trans (List.Perm.swap a b bs)

theorem sortByMtimeDesc_perm (l : List IncEntry) : (sortByMtimeDesc l).Perm l := by
  induction l with
  | nil => exact List.Perm.refl _
  | cons a l ih =>
    have : sortByMtimeDesc (a :: l) = insertByMtimeDesc a (sortByMtimeDesc l) := rfl
    rw [this]
    exact (insertByMtimeDesc_perm a (sortByMtimeDesc l)).trans (ih.cons a)

theorem insertByMtimeDesc_sorted (a : IncEntry) {l : List IncEntry}
    (h : l.Pairwise (fun x y => y.mtime ≤ x.mtime)) :
    (insertByMtimeDesc a l).Pairwise (fun x y => y.mtime ≤ x.mtime) := by
  induction l with
  | nil => simp [insertByMtimeDesc]
  | cons b bs ih =>
    rcases List.pairwise_cons.mp h with ⟨hb, hbs⟩
    unfold insertByMtimeDesc
    by_cases hba : b.mtime ≤ a.mtime
    · rw [if_pos hba]
      refine List.pairwise_cons.mpr ⟨?_, h⟩
      intro x hx
      rcases List.mem_cons.mp hx with rfl | hx2
      · exact hba
      · exact le_trans (hb x hx2) hba
    · rw [if_neg hba]
      refine List.pairwise_cons.mpr ⟨?_, ih hbs⟩
      intro x hx
      have hx3 : x ∈ a :: bs := (insertByMtimeDesc_perm a bs).mem_iff.mp hx
      rcases List.mem_cons.mp hx3 with rfl | hx4
      · omega
      · exact hb x hx4

theorem sortByMtimeDesc_sorted (l : List IncEntry) :
    (sortByMtimeDesc l).Pairwise (fun x y => y.mtime ≤ x.mtime) := by
  induction l with
  | nil => simp [sortByMtimeDesc]
  | cons a l ih => exact insertByMtimeDesc_sorted a ih

theorem mem_staleOf {gl : List IncEntry} (hnd : gl.Nodup)
    (hmt : ∀ a ∈ gl, ∀ b ∈ gl, a ≠ b → a.mtime ≠ b.mtime) (x : IncEntry) :
    x ∈ staleOf gl ↔ x ∈ gl ∧ ∃ y ∈ gl, x.mtime < y.mtime := by
  unfold staleOf
  by_cases hlen : gl.length ≤ 1
  · rw [if_pos hlen]
    cases gl with
    | nil => simp
    | cons a t =>
      cases t with
      | nil =>
        simp only [List.not_mem_nil, false_iff, not_and]
        intro hx
        rcases List.mem_singleton.mp hx with rfl
        rintro ⟨y, hy, hlt⟩
        rcases List.mem_singleton.mp hy with rfl
        omega
      | cons b t2 => simp at hlen
  · rw [if_neg hlen]
    have hperm := sortByMtimeDesc_perm gl
    obtain ⟨h, t, hsort⟩ : ∃ h t, sortByMtimeDesc gl = h :: t := by
      cases hs : sortByMtimeDesc gl with
      | nil =>
        exfalso
        have := hperm.length_eq
        rw [hs] at this
        simp at this
        omega
      | cons h t => exact ⟨h, t, rfl⟩
    rw [hsort, List.drop_one, List.tail_cons]
    have hsorted := sortByMtimeDesc_sorted gl
    rw [hsort] at hsorted
    have hhd : h ∈ gl := hperm.mem_iff.mp (hsort ▸ List.mem_cons_self h t)
    constructor
    · intro hxt
      have hx : x ∈ gl := hperm.mem_iff.mp (hsort ▸ List.mem_cons_of_mem h hxt)
      have hle : x.mtime ≤ h.mtime := (List.pairwise_cons.mp hsorted).1 x hxt
      have hne : x ≠ h := by
        intro heq
        subst heq
        have hnd2 : (x :: t).Nodup := hsort ▸ (hperm.nodup_iff.mpr hnd)
        exact (List.nodup_cons.mp hnd2).1 hxt
      have := hmt x hx h hhd hne
      exact ⟨hx, h, hhd, by omega⟩
    · rintro ⟨hx, y, hy, hlt⟩
      have hxs : x ∈ h :: t := hsort ▸ hperm.mem_iff.mpr hx
      rcases List.mem_cons.mp hxs with rfl | hxt
      · exfalso
        have hys : y ∈ x :: t := hsort ▸ hperm.mem_iff.mpr hy
        rcases List.mem_cons.mp hys with rfl | hyt
        · omega
        · have := (List.pairwise_cons.mp hsorted).1 y hyt
          omega
      · exact hxt

theorem groupByCrate_step (a : IncEntry) (p : List IncEntry)
    (gs : List (String × List IncEntry))
    (h2 : ∀ g ∈ gs, g.2 = p.filter (fun e => crateNameOfDir e.name = g.1))
    (h3 : ∀ e ∈ p, ∃ g ∈ gs, g.1 = crateNameOfDir e.name) :
    (∀ g ∈ addToGroups gs a, g.2 = (p ++ [a]).filter (fun e => crateNameOfDir e.name = g.1))
    ∧ (∀ e ∈ p ++ [a], ∃ g ∈ addToGroups gs a, g.1 = crateNameOfDir e.name) := by
  unfold addToGroups
  by_cases hany : gs.any (fun g => g.1 = crateNameOfDir a.name) = true
  · rw [if_pos hany]
    constructor
    · intro g hg
      rcases List.mem_map.mp hg with ⟨g0, hg0, rfl⟩
      by_cases hgk : g0.1 = crateNameOfDir a.name
      · rw [if_pos hgk]
        rw [List.filter_append, h2 g0 hg0]
        simp [List.filter_cons, hgk]
      · rw [if_neg hgk]
        rw [List.filter_append, h2 g0 hg0]
        have hne : ¬(crateNameOfDir a.name = g0.1) := fun h => hgk h.symm
        simp [List.filter_cons, hne]
    · intro e he
      rcases List.mem_append.mp he with hep | hea
      · rcases h3 e hep with ⟨g, hg, hgk⟩
        refine ⟨if g.1 = crateNameOfDir a.name then (g.1, g.2 ++ [a]) else g,
          List.mem_map.mpr ⟨g, hg, rfl⟩, ?_⟩
        by_cases hgk2 : g.1 = crateNameOfDir a.name
        · rw [if_pos hgk2]; exact hgk
        · rw [if_neg hgk2]; exact hgk
      · have hae : e = a := List.mem_singleton.mp hea
        subst hae
        rcases List.any_eq_true.mp hany with ⟨g, hg, hgk⟩
        rw [decide_eq_true_eq] at hgk
        refine ⟨(g.1, g.2 ++ [e]), ?_, hgk⟩
        refine List.mem_map.mpr ⟨g, hg, ?_⟩
        rw [if_pos hgk]
  · rw [if_neg hany]
    have hknot : ∀ g ∈ gs, g.1 ≠ crateNameOfDir a.name := by
      intro g hg hgk
      exact hany (List.any_eq_true.mpr ⟨g, hg, by simp [hgk]⟩)
    constructor
    · intro g hg
      rcases List.mem_append.mp hg with hg0 | hgnew
      · rw [List.filter_append, h2 g hg0]
        have hne : ¬(crateNameOfDir a.name = g.1) := fun h => hknot g hg0 h.symm
        simp [List.filter_cons, hne]
      · have hgeq : g = (crateNameOfDir a.name, [a]) := List.mem_singleton.mp hgnew
        subst hgeq
        rw [List.filter_append]
        have hp : p.filter (fun e => crateNameOfDir e.name = crateNameOfDir a.name) = [] := by
          rw [List.filter_eq_nil]
          intro e hep hek
          rw [decide_eq_true_eq] at hek
          rcases h3 e hep with ⟨g, hg, hgk⟩
          exact hknot g hg (by rw [hgk, hek])
        rw [hp]
        simp [List.filter_cons]
    · intro e he
      rcases List.mem_append.mp he with hep | hea
      · rcases h3 e hep with ⟨g, hg, hgk⟩
        exact ⟨g, List.mem_append.mpr (Or.inl hg), hgk⟩
      · have hae : e = a := List.mem_singleton.mp hea
        subst hae
        exact ⟨(crateNameOfDir e.name, [e]),
          List.mem_append.mpr (Or.inr (List.mem_singleton.mpr rfl)), rfl⟩

theorem groupByCrate_aux (l : List IncEntry) :
    ∀ (p : List IncEntry) (gs : List (String × List IncEntry)),
      (∀ g ∈ gs, g.2 = p.filter (fun e => crateNameOfDir e.name = g.1)) →
      (∀ e ∈ p, ∃ g ∈ gs, g.1 = crateNameOfDir e.name) →
      (∀ g ∈ l.foldl addToGroups gs,
        g.2 = (p ++ l).filter (fun e => crateNameOfDir e.name = g.1))
      ∧ (∀ e ∈ p ++ l, ∃ g ∈ l.foldl addToGroups gs, g.1 = crateNameOfDir e.name) := by
  induction l with
  | nil =>
    intro p gs h2 h3
    simp only [List.foldl_nil, List.append_nil]
    exact ⟨h2, h3⟩
  | cons a l ih =>
    intro p gs h2 h3
    have step := groupByCrate_step a p gs h2 h3
    have h := ih (p ++ [a]) (addToGroups gs a) step.1 step.2
    rw [List.append_assoc, List.singleton_append] at h
    exact h

theorem groupByCrate_spec (l : List IncEntry) :
    (∀ g ∈ groupByCrate l, g.2 = l.filter (fun e => crateNameOfDir e.name = g.1))
    ∧ (∀ e ∈ l, ∃ g ∈ groupByCrate l, g.1 = crateNameOfDir e.name) := by
  have h := groupByCrate_aux l [] [] (by simp) (by simp)
  rw [List.nil_append] at h
  exact h

/-! ## Claim C4: the incremental-session reducer -/

/-- **C4** (confirmed): `clean_incremental_dir` groups the subdirectories of
`<profile>/incremental` by the crate name obtained from splitting each name
at its last `-`, and marks exactly the members that have a strictly more
recently modified session of the same crate — i.e. everything except the
most recent session of each group; groups of size one contribute nothing.
Stated under the well-formedness facts of a real directory listing:
subdirectory names are distinct, and (as in the claim's scenario) sessions
of the same crate have distinct modification times. -/
theorem c4_incremental_reducer (incDir profile : String) (entries : List IncEntry)
    (hpw : (entries.filter (·.isDir)).Pairwise
      (fun a b => a.name ≠ b.name ∧
        (crateNameOfDir a.name = crateNameOfDir b.name → a.mtime ≠ b.mtime))) :
    (∀ d ∈ (clean_incremental_dir true incDir entries profile).dirs_to_remove,
      ∃ e, e ∈ entries ∧ e.isDir = true
        ∧ d = { path := joinPath incDir e.name, size := e.size, profile := profile }
        ∧ ∃ e2, e2 ∈ entries ∧ e2.isDir = true
            ∧ crateNameOfDir e2.name = crateNameOfDir e.name ∧ e.mtime < e2.mtime)
    ∧ (∀ e, e ∈ entries → e.isDir = true →
        (∃ e2, e2 ∈ entries ∧ e2.isDir = true
          ∧ crateNameOfDir e2.name = crateNameOfDir e.name ∧ e.mtime < e2.mtime) →
        ({ path := joinPath incDir e.name, size := e.size, profile := profile } : DirToRemove)
          ∈ (clean_incremental_dir true incDir entries profile).dirs_to_remove) := by
  have hspec := groupByCrate_spec (entries.filter (·.isDir))
  have hsymm : Symmetric (fun a b : IncEntry => a.name ≠ b.name ∧
      (crateNameOfDir a.name = crateNameOfDir b.name → a.mtime ≠ b.mtime)) := by
    rintro x y ⟨hn, hm⟩
    exact ⟨hn.symm, fun hk => (hm hk.symm).symm⟩
  have hforall := List.Pairwise.forall hsymm hpw
  have hgroup : ∀ g ∈ groupByCrate (entries.filter (·.isDir)),
      g.2.Nodup ∧ (∀ x ∈ g.2, ∀ y ∈ g.2, x ≠ y → x.mtime ≠ y.mtime)
        ∧ (∀ x ∈ g.2, x ∈ entries ∧ x.isDir = true ∧ crateNameOfDir x.name = g.1) := by
    intro g hg
    have hg2 := hspec.1 g hg
    have hsub : ∀ x ∈ g.2, x ∈ entries ∧ x.isDir = true ∧ crateNameOfDir x.name = g.1 := by
      intro x hx
      rw [hg2] at hx
      have hx1 := List.mem_filter.mp hx
      have hx2 := List.mem_filter.mp hx1.1
      refine ⟨hx2.1, hx2.2, ?_⟩
      have := hx1.2
      rwa [decide_eq_true_eq] at this
    refine ⟨?_, ?_, hsub⟩
    · rw [hg2]
      have hpairs : (entries.filter (·.isDir)).Pairwise (fun a b : IncEntry => a ≠ b) :=
        hpw.imp (fun h => fun heq => h.1 (by rw [heq]))
      exact List.Pairwise.filter _ hpairs
    · intro x hx y hy hxy
      have hxd := hsub x hx
      have hyd := hsub y hy
      have hxm : x ∈ entries.filter (·.isDir) :=
        List.mem_filter.mpr ⟨hxd.1, by simp [hxd.2.1]⟩
      have hym : y ∈ entries.filter (·.isDir) :=
        List.mem_filter.mpr ⟨hyd.1, by simp [hyd.2.1]⟩
      exact (hforall hxm hym hxy).2 (by rw [hxd.2.2, hyd.2.2])
  constructor
  · intro d hd
    rcases mem_incremental_dirs.mp hd with ⟨g, hg, x, hx, rfl⟩
    rcases hgroup g hg with ⟨hnd, hmt, hsub⟩
    rcases (mem_staleOf hnd hmt x).mp hx with ⟨hxg, y, hyg, hlt⟩
    rcases hsub x hxg with ⟨hxe, hxd, hxk⟩
    rcases hsub y hyg with ⟨hye, hyd, hyk⟩
    exact ⟨x, hxe, hxd, rfl, y, hye, hyd, by rw [hyk, hxk], hlt⟩
  · rintro e he hdir ⟨e2, he2, hdir2, hkey, hlt⟩
    have hem : e ∈ entries.filter (·.isDir) := List.mem_filter.mpr ⟨he, by simp [hdir]⟩
    have he2m : e2 ∈ entries.filter (·.isDir) := List.mem_filter.mpr ⟨he2, by simp [hdir2]⟩
    rcases hspec.2 e hem with ⟨g, hg, hgk⟩
    rcases hgroup g hg with ⟨hnd, hmt, _⟩
    have hg2 := (groupByCrate_spec (entries.filter (·.isDir))).1 g hg
    have heg : e ∈ g.2 := by
      rw [hg2]
      exact List.mem_filter.mpr ⟨hem, by simp [hgk]⟩
    have he2g : e2 ∈ g.2 := by
      rw [hg2]
      refine List.mem_filter.mpr ⟨he2m, ?_⟩
      rw [decide_eq_true_eq, hkey, ← hgk]
    have hstale : e ∈ staleOf g.2 :=
      (mem_staleOf hnd hmt e).mpr ⟨heg, e2, he2g, hlt⟩
    exact mem_incremental_dirs.mpr ⟨g, hg, e, hstale, rfl⟩

/-- Witness for C4 on the spec's scenario: three `bevy_pbr` sessions with
distinct mtimes and one `serde` session — exactly the two older `bevy_pbr`
sessions are marked, the newest and the sole `serde` session are not. -/
theorem c4_incremental_reducer_witness :
    (({ path := "p/incremental/bevy_pbr-1aaa", size := 11, profile := "debug" } : DirToRemove)
      ∈ (clean_incremental_dir true "p/incremental"
          [⟨"bevy_pbr-1aaa", true, 100, 11⟩, ⟨"bevy_pbr-2bbb", true, 200, 12⟩,
            ⟨"bevy_pbr-3ccc", true, 390, 13⟩, ⟨"serde-4ddd", true, 250, 14⟩]
          "debug").dirs_to_remove)
    ∧ (∀ d ∈ (clean_incremental_dir true "p/incremental"
          [⟨"bevy_pbr-1aaa", true, 100, 11⟩, ⟨"bevy_pbr-2bbb", true, 200, 12⟩,
            ⟨"bevy_pbr-3ccc", true, 390, 13⟩, ⟨"serde-4ddd", true, 250, 14⟩]
          "debug").dirs_to_remove,
        d.path ≠ "p/incremental/bevy_pbr-3ccc" ∧ d.path ≠ "p/incremental/serde-4ddd") := by
  have h := c4_incremental_reducer "p/incremental" "debug"
    [⟨"bevy_pbr-1aaa", true, 100, 11⟩, ⟨"bevy_pbr-2bbb", true, 200, 12⟩,
      ⟨"bevy_pbr-3ccc", true, 390, 13⟩, ⟨"serde-4ddd", true, 250, 14⟩]
    (by decide)
  exact ⟨h.2 ⟨"bevy_pbr-1aaa", true, 100, 11⟩ (by decide) (by decide)
    ⟨⟨"bevy_pbr-3ccc", true, 390, 13⟩, by decide, by decide, by decide, by decide⟩,
    by decide⟩

/-! ## Lemmas: characterizing `actually_remove_files` -/

theorem removeOneFile_files (rf : String → Option String) (s : CleanupStats)
    (fi : FileToRemove) :
    (removeOneFile rf s fi).files = s.files + (if (rf fi.path).isNone then 1 else 0) := by
  unfold removeOneFile
  cases h : rf fi.path <;> simp [h]

theorem removeOneFile_bytes (rf : String → Option String) (s : CleanupStats)
    (fi : FileToRemove) :
    (removeOneFile rf s fi).bytes
      = s.bytes + (if (rf fi.path).isNone then fi.size else 0) := by
  unfold removeOneFile
  cases h : rf fi.path <;> simp [h]

theorem removeOneFile_errors (rf : String → Option String) (s : CleanupStats)
    (fi : FileToRemove) (k : String × String × String) :
    ((removeOneFile rf s fi).errors k ≠ none ↔
      s.errors k ≠ none ∨ ((rf fi.path).isSome = true
        ∧ k = (crate_key_path fi.path, fi.profile, fi.path))) := by
  unfold removeOneFile
  cases h : rf fi.path with
  | none => simp [h]
  | some msg =>
    by_cases hk : k = (crate_key_path fi.path, fi.profile, fi.path)
    · simp [h, insertErr, hk]
    · simp [h, insertErr, hk]

theorem removeOneDir_files (rd : String → Option String) (s : CleanupStats)
    (di : DirToRemove) :
    (removeOneDir rd s di).files = s.files + (if (rd di.path).isNone then 1 else 0) := by
  unfold removeOneDir
  cases h : rd di.path <;> simp [h]

theorem removeOneDir_bytes (rd : String → Option String) (s : CleanupStats)
    (di : DirToRemove) :
    (removeOneDir rd s di).bytes
      = s.bytes + (if (rd di.path).isNone then di.size else 0) := by
  unfold removeOneDir
  cases h : rd di.path <;> simp [h]

theorem removeOneDir_errors (rd : String → Option String) (s : CleanupStats)
    (di : DirToRemove) (k : String × String × String) :
    ((removeOneDir rd s di).errors k ≠ none ↔
      s.errors k ≠ none ∨ ((rd di.path).isSome = true
        ∧ k = ("incremental", di.profile, di.path))) := by
  unfold removeOneDir
  cases h : rd di.path with
  | none => simp [h]
  | some msg =>
    by_cases hk : k = ("incremental", di.profile, di.path)
    · simp [h, insertErr, hk]
    · simp [h, insertErr, hk]

theorem foldl_removeFiles_files (rf : String → Option String) (l : List FileToRemove)
    (s : CleanupStats) :
    (l.foldl (removeOneFile rf) s).files
      = s.files + l.countP (fun fi => (rf fi.path).isNone) := by
  induction l generalizing s with
  | nil => simp
  | cons a l ih =>
    rw [List.foldl_cons, ih, removeOneFile_files, List.countP_cons]
    cases h : (rf a.path).isNone <;> simp [h] <;> omega

theorem foldl_removeFiles_bytes (rf : String → Option String) (l : List FileToRemove)
    (s : CleanupStats) :
    (l.foldl (removeOneFile rf) s).bytes
      = s.bytes + (l.map (fun fi => if (rf fi.path).isNone then fi.size else 0)).sum := by
  induction l generalizing s with
  | nil => simp
  | cons a l ih =>
    rw [List.foldl_cons, ih, removeOneFile_bytes]
    simp [Nat.add_assoc]

theorem foldl_removeFiles_errors (rf : String → Option String) (l : List FileToRemove)
    (s : CleanupStats) (k : String × String × String) :
    ((l.foldl (removeOneFile rf) s).errors k ≠ none ↔
      s.errors k ≠ none ∨ ∃ fi ∈ l, (rf fi.path).isSome = true
        ∧ k = (crate_key_path fi.path, fi.profile, fi.path)) := by
  induction l generalizing s with
  | nil => simp
  | cons a l ih =>
    rw [List.foldl_cons, ih, removeOneFile_errors]
    constructor
    · rintro ((hs | ha) | hl)
      · exact Or.inl hs
      · exact Or.inr ⟨a, List.mem_cons_self a l, ha⟩
      · rcases hl with ⟨fi, hfi, hp⟩
        exact Or.inr ⟨fi, List.mem_cons_of_mem a hfi, hp⟩
    · rintro (hs | ⟨fi, hfi, hp⟩)
      · exact Or.inl (Or.inl hs)
      · rcases List.mem_cons.mp hfi with rfl | hfi2
        · exact Or.inl (Or.inr hp)
        · exact Or.inr ⟨fi, hfi2, hp⟩

theorem foldl_removeDirs_files (rd : String → Option String) (l : List DirToRemove)
    (s : CleanupStats) :
    (l.foldl (removeOneDir rd) s).files
      = s.files + l.countP (fun di => (rd di.path).isNone) := by
  induction l generalizing s with
  | nil => simp
  | cons a l ih =>
    rw [List.foldl_cons, ih, removeOneDir_files, List.countP_cons]
    cases h : (rd a.path).isNone <;> simp [h] <;> omega

theorem foldl_removeDirs_bytes (rd : String → Option String) (l : List DirToRemove)
    (s : CleanupStats) :
    (l.foldl (removeOneDir rd) s).bytes
      = s.bytes + (l.map (fun di => if (rd di.path).isNone then di.size else 0)).sum := by
  induction l generalizing s with
  | nil => simp
  | cons a l ih =>
    rw [List.foldl_cons, ih, removeOneDir_bytes]
    simp [Nat.add_assoc]

theorem foldl_removeDirs_errors (rd : String → Option String) (l : List DirToRemove)
    (s : CleanupStats) (k : String × String × String) :
    ((l.foldl (removeOneDir rd) s).errors k ≠ none ↔
      s.errors k ≠ none ∨ ∃ di ∈ l, (rd di.path).isSome = true
        ∧ k = ("incremental", di.profile, di.path)) := by
  induction l generalizing s with
  | nil => simp
  | cons a l ih =>
    rw [List.foldl_cons, ih, removeOneDir_errors]
    constructor
    · rintro ((hs | ha) | hl)
      · exact Or.inl hs
      · exact Or.inr ⟨a, List.mem_cons_self a l, ha⟩
      · rcases hl with ⟨di, hdi, hp⟩
        exact Or.inr ⟨di, List.mem_cons_of_mem a hdi, hp⟩
    · rintro (hs | ⟨di, hdi, hp⟩)
      · exact Or.inl (Or.inl hs)
      · rcases List.mem_cons.mp hdi with rfl | hdi2
        · exact Or.inl (Or.inr hp)
        · exact Or.inr ⟨di, hdi2, hp⟩

theorem filter_const_true {α : Type _} (l : List α) (b : Bool) :
    l.filter (fun _ => b) = if b then l else [] := by
  cases b <;> simp

/-! ## Claim C9: the removal executor -/

/-- **C9** (confirmed): `actually_remove_files` attempts every selected item
independently — the outcome counters are total functions of the whole
selected lists, not of a prefix: `files` counts exactly the successful
deletions, `bytes` sums exactly the successfully deleted sizes, and a key
carries an error exactly when some selected item with that key — crate key
of the path for files, the fixed `"incremental"` for stale session
directories — failed to delete.  In particular a failure at item `k` leaves
every later item processed and counted. -/
theorem c9_partial_failure_isolation (rf rd : String → Option String)
    (stats : CleanupStats) (sel : RemovalSelection) :
    (actually_remove_files rf rd stats sel).files
      = (if sel.remove_files then stats.files_to_remove else []).countP
          (fun fi => (rf fi.path).isNone)
        + (if sel.remove_dirs then stats.dirs_to_remove else []).countP
            (fun di => (rd di.path).isNone)
    ∧ (actually_remove_files rf rd stats sel).bytes
      = ((if sel.remove_files then stats.files_to_remove else []).map
          (fun fi => if (rf fi.path).isNone then fi.size else 0)).sum
        + ((if sel.remove_dirs then stats.dirs_to_remove else []).map
            (fun di => if (rd di.path).isNone then di.size else 0)).sum
    ∧ ∀ k, ((actually_remove_files rf rd stats sel).errors k ≠ none ↔
        (∃ fi ∈ (if sel.remove_files then stats.files_to_remove else []),
          (rf fi.path).isSome = true ∧ k = (crate_key_path fi.path, fi.profile, fi.path))
        ∨ (∃ di ∈ (if sel.remove_dirs then stats.dirs_to_remove else []),
          (rd di.path).isSome = true ∧ k = ("incremental", di.profile, di.path))) := by
  unfold actually_remove_files
  rw [filter_const_true, filter_const_true]
  refine ⟨?_, ?_, ?_⟩
  · rw [foldl_removeDirs_files, foldl_removeFiles_files]
    simp
  · rw [foldl_removeDirs_bytes, foldl_removeFiles_bytes]
    simp
  · intro k
    rw [foldl_removeDirs_errors, foldl_removeFiles_errors]
    simp only [ne_eq]
    constructor
    · rintro ((hs | hf) | hd)
      · simp at hs
      · exact Or.inl hf
      · exact Or.inr hd
    · rintro (hf | hd)
      · exact Or.inl (Or.inr hf)
      · exact Or.inr hd

/-- Witness for C9: three candidate files of which the middle one fails to
delete — both later and earlier successes are counted (`files = 2`,
`bytes = 5`) and the failed one is recorded under
`(crate key, profile, path)`. -/
theorem c9_partial_failure_isolation_witness :
    (actually_remove_files
        (fun p => if p = "/t/d/libb-h2.rlib" then some "permission denied" else none)
        (fun _ => none)
        { files_to_remove := [{ path := "/t/d/liba-h1.rlib", size := 1, profile := "debug" },
            { path := "/t/d/libb-h2.rlib", size := 2, profile := "debug" },
            { path := "/t/d/libc-h3.rlib", size := 4, profile := "debug" }] }
        { remove_files := true, remove_dirs := true }).files = 2
    ∧ (actually_remove_files
        (fun p => if p = "/t/d/libb-h2.rlib" then some "permission denied" else none)
        (fun _ => none)
        { files_to_remove := [{ path := "/t/d/liba-h1.rlib", size := 1, profile := "debug" },
            { path := "/t/d/libb-h2.rlib", size := 2, profile := "debug" },
            { path := "/t/d/libc-h3.rlib", size := 4, profile := "debug" }] }
        { remove_files := true, remove_dirs := true }).bytes = 5
    ∧ (actually_remove_files
        (fun p => if p = "/t/d/libb-h2.rlib" then some "permission denied" else none)
        (fun _ => none)
        { files_to_remove := [{ path := "/t/d/liba-h1.rlib", size := 1, profile := "debug" },
            { path := "/t/d/libb-h2.rlib", size := 2, profile := "debug" },
            { path := "/t/d/libc-h3.rlib", size := 4, profile := "debug" }] }
        { remove_files := true, remove_dirs := true }).errors
        ("b", "debug", "/t/d/libb-h2.rlib") ≠ none := by
  have h := c9_partial_failure_isolation
    (fun p => if p = "/t/d/libb-h2.rlib" then some "permission denied" else none)
    (fun _ => none)
    { files_to_remove := [{ path := "/t/d/liba-h1.rlib", size := 1, profile := "debug" },
        { path := "/t/d/libb-h2.rlib", size := 2, profile := "debug" },
        { path := "/t/d/libc-h3.rlib", size := 4, profile := "debug" }] }
    { remove_files := true, remove_dirs := true }
  refine ⟨by rw [h.1]; decide, by rw [h.2.1]; decide, ?_⟩
  exact (h.2.2 ("b", "debug", "/t/d/libb-h2.rlib")).mpr
    (Or.inl ⟨{ path := "/t/d/libb-h2.rlib", size := 2, profile := "debug" },
      by decide, by decide, by decide⟩)

/-! ## Lemmas: first-match characterization of `find?`, used for the
right-to-left scan of `extract_artifact_path` -/

theorem find?_eq_some_decomp {α : Type _} (p : α → Bool) (l : List α) (x : α) :
    l.find? p = some x ↔
      ∃ l₁ l₂, l = l₁ ++ x :: l₂ ∧ p x = true ∧ ∀ y ∈ l₁, p y = false := by
  induction l with
  | nil => simp
  | cons a t ih =>
    cases hp : p a
    · rw [List.find?_cons_of_neg _ (by simp [hp]), ih]
      constructor
      · rintro ⟨l₁, l₂, rfl, hx, hall⟩
        refine ⟨a :: l₁, l₂, rfl, hx, ?_⟩
        intro y hy
        rcases List.mem_cons.mp hy with rfl | hy2
        · exact hp
        · exact hall y hy2
      · rintro ⟨l₁, l₂, heq, hx, hall⟩
        cases l₁ with
        | nil =>
          simp only [List.nil_append, List.cons.injEq] at heq
          rcases heq with ⟨rfl, rfl⟩
          rw [hp] at hx
          cases hx
        | cons b l₁' =>
          simp only [List.cons_append, List.cons.injEq] at heq
          rcases heq with ⟨rfl, rfl⟩
          exact ⟨l₁', l₂, rfl, hx, fun y hy => hall y (List.mem_cons_of_mem _ hy)⟩
    · rw [List.find?_cons_of_pos _ hp]
      constructor
      · intro h
        injection h with h
        subst h
        exact ⟨[], t, rfl, hp, by simp⟩
      · rintro ⟨l₁, l₂, heq, hx, hall⟩
        cases l₁ with
        | nil =>
          simp only [List.nil_append, List.cons.injEq] at heq
          rw [heq.1]
        | cons b l₁' =>
          simp only [List.cons_append, List.cons.injEq] at heq
          rcases heq with ⟨rfl, rfl⟩
          have hb := hall a (List.mem_cons_self a l₁')
          rw [hp] at hb
          cases hb

theorem find?_reverse_decomp {α : Type _} (p : α → Bool) (l : List α) (x : α) :
    l.reverse.find? p = some x ↔
      ∃ l₁ l₂, l = l₁ ++ x :: l₂ ∧ p x = true ∧ ∀ y ∈ l₂, p y = false := by
  rw [find?_eq_some_decomp]
  constructor
  · rintro ⟨a, b, hab, hx, hall⟩
    have h2 : l = (a ++ x :: b).reverse := by
      rw [← hab, List.reverse_reverse]
    rw [h2]
    refine ⟨b.reverse, a.reverse, by simp, hx, ?_⟩
    intro y hy
    exact hall y (List.mem_reverse.mp hy)
  · rintro ⟨a, b, rfl, hx, hall⟩
    refine ⟨b.reverse, a.reverse, by simp, hx, ?_⟩
    intro y hy
    exact hall y (List.mem_reverse.mp hy)

/-! ## Claim C6: artifact-path extraction from trace lines -/

/-- **C6 counterexample**: the scan is over *all* `'"'`-split segments of
the line, not only the quoted ones.  On `mtime "x"/t/a.rlib` the only
quoted substring is `x`, which is no candidate — the claim then demands
`None` — yet the function returns the unquoted trailing segment
`/t/a.rlib`. -/
theorem c6_extract_counterexample :
    extract_artifact_path "/t" "mtime \"x\"/t/a.rlib" = some "/t/a.rlib"
    ∧ extract_artifact_path_quoted_only "/t" "mtime \"x\"/t/a.rlib" = none
    ∧ strSplit '"' "mtime \"x\"/t/a.rlib" = ["mtime ", "x", "/t/a.rlib"]
    ∧ isArtifactCandidate "/t" "x" = false := by
  refine ⟨by decide, by decide, by decide, by decide⟩

/-- **C6** (amended): `extract_artifact_path` returns `None` for every line
not containing `"mtime"`, and for `"mtime"` lines with fewer than two
`'"'`-split segments (no quote at all); otherwise it returns exactly the
*rightmost* `'"'`-split segment — quoted or unquoted — whose extension is
in the allow-list \x7brlib, rmeta, so, dylib, dll\x7d and which starts with
the configured target directory, and `None` when no segment qualifies. -/
theorem c6_extract_artifact_path (targetDir line : String) :
    (containsSubstring line "mtime" = false →
      extract_artifact_path targetDir line = none)
    ∧ ((strSplit '"' line).length < 2 →
      extract_artifact_path targetDir line = none)
    ∧ (∀ p, extract_artifact_path targetDir line = some p ↔
        (containsSubstring line "mtime" = true ∧ 2 ≤ (strSplit '"' line).length ∧
          ∃ l₁ l₂, strSplit '"' line = l₁ ++ p :: l₂
            ∧ isArtifactCandidate targetDir p = true
            ∧ ∀ q ∈ l₂, isArtifactCandidate targetDir q = false)) := by
  refine ⟨?_, ?_, ?_⟩
  · intro h
    simp [extract_artifact_path, h]
  · intro h
    unfold extract_artifact_path
    by_cases hm : containsSubstring line "mtime" = true
    · simp [hm, h]
    · simp [hm]
  · intro p
    unfold extract_artifact_path
    by_cases hm : containsSubstring line "mtime" = true
    · by_cases hl : (strSplit '"' line).length < 2
      · simp only [hm, Bool.not_true, Bool.false_eq_true, if_false, if_pos hl]
        constructor
        · intro h
          cases h
        · rintro ⟨_, hge, _⟩
          omega
      · simp only [hm, Bool.not_true, Bool.false_eq_true, if_false, if_neg hl]
        rw [find?_reverse_decomp]
        constructor
        · rintro ⟨l₁, l₂, hsplit, hp, hall⟩
          exact ⟨trivial, by omega, l₁, l₂, hsplit, hp, hall⟩
        · rintro ⟨_, _, l₁, l₂, hsplit, hp, hall⟩
          exact ⟨l₁, l₂, hsplit, hp, hall⟩
    · have hm2 : containsSubstring line "mtime" = false := by
        cases h : containsSubstring line "mtime"
        · rfl
        · exact absurd h hm
      simp [hm2]

/-- Witness for C6 on the trace line format from the code's own test: the
rightmost qualifying segment of an `mtime` line is extracted. -/
theorem c6_extract_artifact_path_witness :
    extract_artifact_path "/project/target"
      "max output mtime for \"foo\" is \"/project/target/debug/deps/libfoo-abc123.rlib\" 123s"
      = some "/project/target/debug/deps/libfoo-abc123.rlib" := by
  exact ((c6_extract_artifact_path "/project/target"
    "max output mtime for \"foo\" is \"/project/target/debug/deps/libfoo-abc123.rlib\" 123s").2.2
    "/project/target/debug/deps/libfoo-abc123.rlib").mpr
    ⟨by decide, by decide,
      ["max output mtime for ", "foo", " is "], [" 123s"],
      by decide, by decide, by decide⟩

/-- **C10** (confirmed): `artifact_stem` strips a leading `lib`
unconditionally, so the two files of a crate actually named `libc` fall
into different stem groups: a traced `liblibc-abc.rlib` does not protect
`libc-abc.d`, which lands in `files_to_remove`. -/
theorem c10_lib_strip_unconditional :
    artifact_stem "liblibc-abc.rlib" = some "libc-abc"
    ∧ artifact_stem "libc-abc.d" = some "c-abc"
    ∧ "libc-abc" ≠ "c-abc"
    ∧ (clean_with_trace_result "t/d" [⟨"t/d", "liblibc-abc.rlib"⟩] "debug" []
        [⟨"libc-abc.d", false, 3⟩]).files_to_remove
      = [{ path := "t/d/libc-abc.d", size := 3, profile := "debug" }] := by
  refine ⟨by decide, by decide, by decide, by decide⟩

end CargoClean
